import Mathlib

/-!
Verification of the MESHNET agent memory / checkpoint layer.

This file shallowly embeds the two Python modules
`src/agents/memory/redis_memory.py` (class `RedisMemoryStore`) and
`src/agents/langgraph/redis_checkpoint.py` (class `LangGraphRedisCheckpointer`)
and proves the testable properties stated in the specification about them.

Modelling decisions, stated once here:

* The Redis backend is a record of three total maps: plain string keys
  (`GET`/`SET`/`SETEX`/`DEL`), a TTL side table (`SETEX`/`EXPIRE` write it,
  nothing in the verified claims reads it back, since no claim is about
  expiry), and sorted sets (`ZADD`/`ZREVRANGE`/`ZRANGE`/`ZREMRANGEBYRANK`).
  A sorted set is a list of member/score pairs kept in ascending score
  order; `ZADD` of an existing member re-scores it.  Redis breaks score
  ties lexicographically on the member string; this embedding keeps
  insertion order on ties, and every theorem that depends on ordering
  assumes strictly increasing timestamps, which is what the code's
  `datetime.utcnow().timestamp()` scores provide between distinct calls.
* Python `json` values are modelled by the inductive `Json` (null, bool,
  int, string, object); `json.dumps` of a value is modelled by the `Wire`
  constructor `Wire.jsonOf`, and a backend string that is not the dump of
  any value by `Wire.rawStr`.  `json.loads` is then `loads`, which succeeds
  exactly on `jsonOf` and fails on `rawStr`, modelling a
  `json.JSONDecodeError` on malformed data.  The concrete renderer `dumps`
  is an injective textual stand-in used only by the substring search; no
  theorem depends on its exact output format.
* The wall clock (`datetime.utcnow()`) and the generated checkpoint ids
  (md5 of thread id, timestamp and an `os.urandom` salt) are inputs of the
  operations: each store operation takes the current time as an explicit
  `Nat` argument and `save_checkpoint` takes the generated id as an
  explicit argument.
* Every public operation in the source wraps its body in
  `try ... except: return <falsy>`.  Backend availability is modelled by a
  `conn : Bool` argument: `conn = true` runs the body, `conn = false` is
  the `except` branch (every backend call raising).  For the one claim
  about a *partial* failure inside `save_checkpoint`, the body is in
  addition expressed as a list of backend commands of which only a prefix
  may execute.
-/

mutual

inductive Json where
  | jnull : Json
  | jbool : Bool → Json
  | jnum : Int → Json
  | jstr : String → Json
  | jobj : JFields → Json

inductive JFields where
  | fnil : JFields
  | fcons : String → Json → JFields → JFields

end

mutual

def jeq : Json → Json → Bool
  | .jnull, .jnull => true
  | .jbool a, .jbool b => a == b
  | .jnum a, .jnum b => a == b
  | .jstr a, .jstr b => a == b
  | .jobj a, .jobj b => feq a b
  | _, _ => false

def feq : JFields → JFields → Bool
  | .fnil, .fnil => true
  | .fcons k1 v1 t1, .fcons k2 v2 t2 => k1 == k2 && jeq v1 v2 && feq t1 t2
  | _, _ => false

end

mutual

def jeq_iff : ∀ a b : Json, jeq a b = true ↔ a = b
  | .jnull, .jnull => by simp [jeq]
  | .jbool _, .jbool _ => by simp [jeq]
  | .jnum _, .jnum _ => by simp [jeq]
  | .jstr _, .jstr _ => by simp [jeq]
  | .jobj a, .jobj b => by simp [jeq, feq_iff a b]
  | .jnull, .jbool _ => by simp [jeq]
  | .jnull, .jnum _ => by simp [jeq]
  | .jnull, .jstr _ => by simp [jeq]
  | .jnull, .jobj _ => by simp [jeq]
  | .jbool _, .jnull => by simp [jeq]
  | .jbool _, .jnum _ => by simp [jeq]
  | .jbool _, .jstr _ => by simp [jeq]
  | .jbool _, .jobj _ => by simp [jeq]
  | .jnum _, .jnull => by simp [jeq]
  | .jnum _, .jbool _ => by simp [jeq]
  | .jnum _, .jstr _ => by simp [jeq]
  | .jnum _, .jobj _ => by simp [jeq]
  | .jstr _, .jnull => by simp [jeq]
  | .jstr _, .jbool _ => by simp [jeq]
  | .jstr _, .jnum _ => by simp [jeq]
  | .jstr _, .jobj _ => by simp [jeq]
  | .jobj _, .jnull => by simp [jeq]
  | .jobj _, .jbool _ => by simp [jeq]
  | .jobj _, .jnum _ => by simp [jeq]
  | .jobj _, .jstr _ => by simp [jeq]

def feq_iff : ∀ a b : JFields, feq a b = true ↔ a = b
  | .fnil, .fnil => by simp [feq]
  | .fcons _ v1 t1, .fcons _ v2 t2 => by
      simp [feq, jeq_iff v1 v2, feq_iff t1 t2, and_assoc]
  | .fnil, .fcons _ _ _ => by simp [feq]
  | .fcons _ _ _, .fnil => by simp [feq]

end

instance : DecidableEq Json := fun a b => decidable_of_iff (jeq a b = true) (jeq_iff a b)

instance : DecidableEq JFields := fun a b => decidable_of_iff (feq a b = true) (feq_iff a b)

/-- Lookup of a field in a Python dict literal (`d['key']` / `d.get('key')`). -/
def jlookup : JFields → String → Option Json
  | .fnil, _ => none
  | .fcons k v rest, key => if k = key then some v else jlookup rest key

/-- Field access on a parsed record: `record['key']` on a dict, absent otherwise. -/
def objGet : Json → String → Option Json
  | .jobj fields, key => jlookup fields key
  | _, _ => none

/-- Python truthiness of a json value (`if metadata:` on a dict, etc.). -/
def jsonTruthy : Json → Bool
  | .jnull => false
  | .jbool b => b
  | .jnum n => n != 0
  | .jstr s => s ≠ ""
  | .jobj .fnil => false
  | .jobj (.fcons _ _ _) => true

mutual

/-- Concrete injective rendering of a json value; stand-in for `json.dumps`.
Only the case-insensitive substring search reads it. -/
def dumps : Json → String
  | .jnull => "null"
  | .jbool true => "true"
  | .jbool false => "false"
  | .jnum n => toString n
  | .jstr s => "str[" ++ s ++ "]"
  | .jobj fields => "obj[" ++ dumpsF fields ++ "]"

def dumpsF : JFields → String
  | .fnil => ""
  | .fcons k v rest => k ++ ": " ++ dumps v ++ ", " ++ dumpsF rest

end

/-- A string stored in (or retrieved from) Redis: either the `json.dumps` of a
value, or a string that is not the dump of any json value (a plain id, or
malformed data). -/
inductive Wire where
  | jsonOf : Json → Wire
  | rawStr : String → Wire
deriving DecidableEq

/-- The character content of the stored string (used where the code treats a
retrieved string as text, e.g. as a key fragment). -/
def Wire.asStr : Wire → String
  | .jsonOf j => dumps j
  | .rawStr s => s

/-- Model of `json.loads`: succeeds exactly on strings that are dumps of a
json value, raises (`none`) otherwise. -/
def loads : Wire → Option Json
  | .jsonOf j => some j
  | .rawStr _ => none

/-- State of the Redis backend: plain string keys, the TTL side table, and
sorted sets (ascending score; absent key = empty list). `DEL` clears a key
in every table, as Redis deletes a key of any type. -/
structure RedisState where
  strings : String → Option Wire
  ttls : String → Option Nat
  zsets : String → List (Wire × Nat)

/-- Backend state with no keys. -/
def emptyState : RedisState :=
  { strings := fun _ => none, ttls := fun _ => none, zsets := fun _ => [] }

/-- Pointwise update of a key-indexed table. -/
def upd {α : Type} (f : String → α) (k : String) (v : α) : String → α :=
  fun k2 => if k2 = k then v else f k2

/-- Redis `SET key value` (clears any TTL, as Redis SET does). -/
def redisSet (st : RedisState) (k : String) (v : Wire) : RedisState :=
  { st with strings := upd st.strings k (some v), ttls := upd st.ttls k none }

/-- Redis `SETEX key seconds value`. -/
def redisSetex (st : RedisState) (k : String) (seconds : Nat) (v : Wire) : RedisState :=
  { st with strings := upd st.strings k (some v), ttls := upd st.ttls k (some seconds) }

/-- Redis `GET key`. -/
def redisGet (st : RedisState) (k : String) : Option Wire :=
  st.strings k

/-- Redis `EXPIRE key seconds`. -/
def redisExpire (st : RedisState) (k : String) (seconds : Nat) : RedisState :=
  { st with ttls := upd st.ttls k (some seconds) }

/-- Redis `DEL key`: removes the key whatever its type. -/
def redisDel (st : RedisState) (k : String) : RedisState :=
  { strings := upd st.strings k none, ttls := upd st.ttls k none,
    zsets := upd st.zsets k [] }

/-- Redis `EXISTS key`. -/
def redisExists (st : RedisState) (k : String) : Bool :=
  (st.strings k).isSome || !(st.zsets k).isEmpty

/-- Insert a member at its score position in an ascending-by-score list
(after all members of smaller or equal score). -/
def zinsert : List (Wire × Nat) → Wire → Nat → List (Wire × Nat)
  | [], m, s => [(m, s)]
  | e :: rest, m, s => if s < e.2 then (m, s) :: e :: rest else e :: zinsert rest m s

/-- Redis `ZADD key {member: score}` on the member list: an already present
member is re-scored, then the member is placed by its new score. -/
def zaddList (l : List (Wire × Nat)) (m : Wire) (s : Nat) : List (Wire × Nat) :=
  zinsert (l.filter (fun e => decide (e.1 ≠ m))) m s

/-- Redis `ZADD key {member: score}`. -/
def redisZadd (st : RedisState) (k : String) (m : Wire) (s : Nat) : RedisState :=
  { st with zsets := upd st.zsets k (zaddList (st.zsets k) m s) }

/-- Redis rank-range selection (`ZRANGE` semantics): negative indices count
from the end, both bounds inclusive, out-of-range clamped. -/
def zsliceGet {α : Type} (l : List α) (start stop : Int) : List α :=
  let n : Int := l.length
  let s0 : Int := if start < 0 then start + n else start
  let e0 : Int := if stop < 0 then stop + n else stop
  let s : Int := max s0 0
  let e : Int := min e0 (n - 1)
  if s > e then [] else (l.drop s.toNat).take (e.toNat + 1 - s.toNat)

/-- Redis rank-range removal (`ZREMRANGEBYRANK` semantics on the member
list): removes the members whose rank lies in the inclusive range. -/
def zsliceRemove {α : Type} (l : List α) (start stop : Int) : List α :=
  let n : Int := l.length
  let s0 : Int := if start < 0 then start + n else start
  let e0 : Int := if stop < 0 then stop + n else stop
  let s : Int := max s0 0
  let e : Int := min e0 (n - 1)
  if s > e then l else l.take s.toNat ++ l.drop (e.toNat + 1)

/-- Redis `ZREVRANGE key start stop` (members only, highest score first). -/
def redisZrevrange (st : RedisState) (k : String) (start stop : Int) : List Wire :=
  (zsliceGet (st.zsets k).reverse start stop).map Prod.fst

/-- Redis `ZRANGE key start stop` (members only, lowest score first). -/
def redisZrange (st : RedisState) (k : String) (start stop : Int) : List Wire :=
  (zsliceGet (st.zsets k) start stop).map Prod.fst

/-- Redis `ZREMRANGEBYRANK key start stop`. -/
def redisZremrangebyrank (st : RedisState) (k : String) (start stop : Int) : RedisState :=
  { st with zsets := upd st.zsets k (zsliceRemove (st.zsets k) start stop) }

/-! Key construction, as in `RedisMemoryStore.prefixes` and the
checkpointer's prefixes. -/

/-- Conversation collection key `meshnet:conv:{agent_id}`. -/
def convKey (agentId : String) : String := "meshnet:conv:" ++ agentId

/-- Decision content key `meshnet:decision:{decision_id}`. -/
def decKey (decisionId : String) : String := "meshnet:decision:" ++ decisionId

/-- Decision index key `meshnet:decision:index:{agent_id}`. -/
def decIndexKey (agentId : String) : String := "meshnet:decision:index:" ++ agentId

/-- Agent state key `meshnet:state:{agent_id}`. -/
def stateKey (agentId : String) : String := "meshnet:state:" ++ agentId

/-- Checkpoint content key `langgraph:checkpoint:{checkpoint_id}`. -/
def ckptKey (checkpointId : String) : String := "langgraph:checkpoint:" ++ checkpointId

/-- Thread index key `langgraph:thread:{thread_id}`. -/
def threadKey (threadId : String) : String := "langgraph:thread:" ++ threadId

/-- Checkpoint metadata key `langgraph:metadata:{checkpoint_id}`. -/
def metaKey (checkpointId : String) : String := "langgraph:metadata:" ++ checkpointId

/-- Injective rendering of the model clock; stands for
`datetime.utcnow().isoformat()` at clock value `t`. -/
def isoTime (t : Nat) : String := toString t

/-- The conversation entry dict built by `store_conversation`. -/
def convEntry (t : Nat) (data : Json) (agentId : String) : Json :=
  .jobj (.fcons "timestamp" (.jstr (isoTime t))
        (.fcons "data" data
        (.fcons "agent_id" (.jstr agentId) .fnil)))

/-- The decision entry dict built by `store_decision`. -/
def decisionEntry (t : Nat) (agentId decisionId : String) (data : Json) : Json :=
  .jobj (.fcons "timestamp" (.jstr (isoTime t))
        (.fcons "agent_id" (.jstr agentId)
        (.fcons "decision_id" (.jstr decisionId)
        (.fcons "data" data .fnil))))

/-- Python `metadata or {}`. -/
def metaField (meta : Option Json) : Json :=
  match meta with
  | none => .jobj .fnil
  | some m => if jsonTruthy m then m else .jobj .fnil

/-- The checkpoint entry dict built by `save_checkpoint`. -/
def checkpointEntry (threadId checkpointId : String) (data : Json)
    (meta : Option Json) (t : Nat) : Json :=
  .jobj (.fcons "thread_id" (.jstr threadId)
        (.fcons "checkpoint_id" (.jstr checkpointId)
        (.fcons "data" data
        (.fcons "metadata" (metaField meta)
        (.fcons "timestamp" (.jstr (isoTime t))
        (.fcons "component" (.jstr "langgraph") .fnil))))))

/-! Operations of `RedisMemoryStore`.  Each takes the backend availability
oracle `conn` (false = the first backend call raises and the `except`
branch runs) and the current clock `t` where the code reads `utcnow`. -/

/-- `RedisMemoryStore.store_conversation`: wrap the payload with timestamp
and agent id, `ZADD` it at score = now, trim the collection to the newest
1000 by `ZREMRANGEBYRANK key 0 -1001`, refresh the 30-day TTL. -/
def store_conversation (conn : Bool) (st : RedisState) (agentId : String)
    (data : Json) (t : Nat) : RedisState × Bool :=
  if conn then
    let key := convKey agentId
    let st1 := redisZadd st key (.jsonOf (convEntry t data agentId)) t
    let st2 := redisZremrangebyrank st1 key 0 (-1001)
    let st3 := redisExpire st2 key (30 * 24 * 3600)
    (st3, true)
  else (st, false)

/-- `RedisMemoryStore.get_conversation_history`: `ZREVRANGE key 0 (limit-1)`,
parse each entry, skip entries that fail to parse; `[]` on backend error. -/
def get_conversation_history (conn : Bool) (st : RedisState) (agentId : String)
    (limit : Int) : List Json :=
  if conn then
    (redisZrevrange st (convKey agentId) 0 (limit - 1)).filterMap loads
  else []

/-- Model of `hashlib.md5((agent_id + "_" + isoformat).encode()).hexdigest()`
in `store_decision`: an injective stand-in for the hex digest. -/
def decisionId (agentId : String) (t : Nat) : String :=
  "md5[" ++ agentId ++ "_" ++ isoTime t ++ "]"

/-- `RedisMemoryStore.store_decision`: write the decision content under a
7-day TTL, `ZADD` its id into the agent's decision index at score = now,
trim the index to the newest 500 by `ZREMRANGEBYRANK key 0 -501`. -/
def store_decision (conn : Bool) (st : RedisState) (agentId : String)
    (data : Json) (t : Nat) : RedisState × Bool :=
  if conn then
    let did := decisionId agentId t
    let st1 := redisSetex st (decKey did) (7 * 24 * 3600)
      (.jsonOf (decisionEntry t agentId did data))
    let st2 := redisZadd st1 (decIndexKey agentId) (.rawStr did) t
    let st3 := redisZremrangebyrank st2 (decIndexKey agentId) 0 (-501)
    (st3, true)
  else (st, false)

/-- `RedisMemoryStore.get_recent_decisions`: read ids from the index by
`ZREVRANGE index 0 (limit-1)`, `GET` each content key, skip absent content
and content that fails to parse; `[]` on backend error. -/
def get_recent_decisions (conn : Bool) (st : RedisState) (agentId : String)
    (limit : Int) : List Json :=
  if conn then
    (redisZrevrange st (decIndexKey agentId) 0 (limit - 1)).filterMap
      (fun idw =>
        match redisGet st (decKey idw.asStr) with
        | some w => loads w
        | none => none)
  else []

/-- Python lowercasing of a string (`.lower()`). -/
def strLower (s : String) : String := String.map Char.toLower s

/-- Contiguous substring test on character lists (Python `needle in hay`). -/
def substrB : List Char → List Char → Bool
  | n, [] => n.isEmpty
  | n, c :: t => n.isPrefixOf (c :: t) || substrB n t

/-- The match test of `search_memory`:
`query.lower() in json.dumps(record).lower()`. -/
def matchQ (query : String) (record : Json) : Bool :=
  substrB (strLower query).data (strLower (dumps record)).data

/-- A search hit dict `{'type': ..., 'relevance': ..., 'data': record}`. -/
def searchHit (ty relevance : String) (record : Json) : Json :=
  .jobj (.fcons "type" (.jstr ty)
        (.fcons "relevance" (.jstr relevance)
        (.fcons "data" record .fnil)))

/-- Python list slice `l[:n]` (negative `n` counts from the end). -/
def pyTake {α : Type} (l : List α) (n : Int) : List α :=
  l.take (if n < 0 then ((l.length : Int) + n).toNat else n.toNat)

/-- `RedisMemoryStore.search_memory`: scan the agent's recent conversations
(window `limit*2`) tagging matches with relevance `high`, then the agent's
recent decisions tagging matches with relevance `medium`, and return the
first `limit` hits in scan order; with no agent id, no conversations are
scanned and decisions are skipped entirely. -/
def search_memory (conn : Bool) (st : RedisState) (query : String)
    (agentId : Option String) (limit : Int) : List Json :=
  if conn then
    let convs :=
      match agentId with
      | some a => get_conversation_history conn st a (limit * 2)
      | none => []
    let convHits := convs.filterMap
      (fun c => if matchQ query c then some (searchHit "conversation" "high" c) else none)
    let decHits :=
      match agentId with
      | some a => (get_recent_decisions conn st a (limit * 2)).filterMap
          (fun d => if matchQ query d then some (searchHit "decision" "medium" d) else none)
      | none => []
    pyTake (convHits ++ decHits) limit
  else []

/-- `RedisMemoryStore.clear_agent_memory`: delete (when present) the
conversation key, the decision index key and the state key, in that order;
then read the decision ids from the (already deleted) index and delete
their content keys; return `True` unless a backend call raised. -/
def clear_agent_memory (conn : Bool) (st : RedisState) (agentId : String) :
    RedisState × Bool :=
  if conn then
    let delStep := fun (acc : RedisState × Nat) (key : String) =>
      if redisExists acc.1 key then (redisDel acc.1 key, acc.2 + 1) else acc
    let acc1 := delStep (delStep (delStep (st, 0) (convKey agentId))
      (decIndexKey agentId)) (stateKey agentId)
    let ids := redisZrange acc1.1 (decIndexKey agentId) 0 (-1)
    let acc2 := ids.foldl
      (fun acc idw =>
        if redisExists acc.1 (decKey idw.asStr)
        then (redisDel acc.1 (decKey idw.asStr), acc.2 + 1) else acc)
      acc1
    (acc2.1, true)
  else (st, false)

/-- `RedisMemoryStore.health_check`: `SETEX` a disposable test key, `GET` it
back, `DEL` it, and report; on any backend error report unhealthy and not
connected, never raising.  `now` is the rendered timestamp, `err` the text
of the caught exception. -/
def health_check (conn : Bool) (st : RedisState) (now : String) (err : String) :
    RedisState × Json :=
  if conn then
    let testKey := "meshnet:health:test"
    let st1 := redisSetex st testKey 60
      (.jsonOf (.jobj (.fcons "timestamp" (.jstr now) .fnil)))
    let retrieved := redisGet st1 testKey
    let st2 := redisDel st1 testKey
    if retrieved.isSome then
      (st2, .jobj (.fcons "status" (.jstr "healthy")
                  (.fcons "redis_connected" (.jbool true)
                  (.fcons "read_write_ok" (.jbool true)
                  (.fcons "timestamp" (.jstr now) .fnil)))))
    else
      (st2, .jobj (.fcons "status" (.jstr "unhealthy")
                  (.fcons "redis_connected" (.jbool true)
                  (.fcons "read_write_ok" (.jbool false)
                  (.fcons "timestamp" (.jstr now) .fnil)))))
  else
    (st, .jobj (.fcons "status" (.jstr "unhealthy")
               (.fcons "redis_connected" (.jbool false)
               (.fcons "error" (.jstr err)
               (.fcons "timestamp" (.jstr now) .fnil)))))

/-! Operations of `LangGraphRedisCheckpointer`.  `save_checkpoint` is
expressed as a sequence of backend commands so that a partial failure
(an exception after only the first `k` backend calls) is the execution of
a prefix of that sequence. -/

/-- One backend call issued by `save_checkpoint`. -/
inductive Cmd where
  | setexC : String → Nat → Wire → Cmd
  | zaddC : String → Wire → Nat → Cmd
  | zremC : String → Int → Int → Cmd

/-- Execute one backend call. -/
def applyCmd (st : RedisState) : Cmd → RedisState
  | .setexC k seconds v => redisSetex st k seconds v
  | .zaddC k m s => redisZadd st k m s
  | .zremC k start stop => redisZremrangebyrank st k start stop

/-- Execute backend calls in order. -/
def applyCmds (cmds : List Cmd) (st : RedisState) : RedisState :=
  cmds.foldl applyCmd st

/-- The backend calls of `LangGraphRedisCheckpointer.save_checkpoint`, in
source order: `SETEX` the checkpoint content (24h TTL), `ZADD` the id into
the thread index at score = now, trim the index to the newest 50 by
`ZREMRANGEBYRANK key 0 -51`, and, when the supplied metadata dict is
truthy, `SETEX` it into the metadata side table (24h TTL). -/
def saveCheckpointCmds (threadId : String) (data : Json) (meta : Option Json)
    (checkpointId : String) (t : Nat) : List Cmd :=
  [.setexC (ckptKey checkpointId) (24 * 3600)
      (.jsonOf (checkpointEntry threadId checkpointId data meta t)),
   .zaddC (threadKey threadId) (.rawStr checkpointId) t,
   .zremC (threadKey threadId) 0 (-51)]
  ++ (match meta with
      | some m =>
        if jsonTruthy m
        then [.setexC (metaKey checkpointId) (24 * 3600) (.jsonOf m)]
        else []
      | none => [])

/-- `LangGraphRedisCheckpointer.save_checkpoint`: run the backend calls and
return the generated checkpoint id; `None` (and no state change) when the
first backend call raises. -/
def save_checkpoint (conn : Bool) (st : RedisState) (threadId : String)
    (data : Json) (meta : Option Json) (checkpointId : String) (t : Nat) :
    RedisState × Option String :=
  if conn then
    (applyCmds (saveCheckpointCmds threadId data meta checkpointId t) st,
     some checkpointId)
  else (st, none)

/-- `LangGraphRedisCheckpointer.load_checkpoint`: `GET` the content key and
parse it; absent or unparseable (or backend error) gives `None`. -/
def load_checkpoint (conn : Bool) (st : RedisState) (checkpointId : String) :
    Option Json :=
  if conn then
    match redisGet st (ckptKey checkpointId) with
    | some w => loads w
    | none => none
  else none

/-- `LangGraphRedisCheckpointer.get_latest_checkpoint`: read the single
highest-score id from the thread index (`ZREVRANGE key 0 0`) and load that
checkpoint; `None` when the index is empty or on backend error. -/
def get_latest_checkpoint (conn : Bool) (st : RedisState) (threadId : String) :
    Option Json :=
  if conn then
    match redisZrevrange st (threadKey threadId) 0 0 with
    | [] => none
    | idw :: _ => load_checkpoint conn st idw.asStr
  else none

/-- `LangGraphRedisCheckpointer.delete_checkpoint`: delete (when present)
the checkpoint content key and the metadata key; the thread index is not
touched (the source notes it would need the thread id).  Returns whether at
least one of the two keys was deleted. -/
def delete_checkpoint (conn : Bool) (st : RedisState) (checkpointId : String) :
    RedisState × Bool :=
  if conn then
    let acc1 :=
      if redisExists st (ckptKey checkpointId)
      then (redisDel st (ckptKey checkpointId), 1)
      else (st, 0)
    let acc2 :=
      if redisExists acc1.1 (metaKey checkpointId)
      then (redisDel acc1.1 (metaKey checkpointId), acc1.2 + 1)
      else acc1
    (acc2.1, decide (0 < acc2.2))
  else (st, false)

/-- The string key written by a backend command, when it writes the plain
string table at all. -/
def cmdStringsKey : Cmd → Option String
  | .setexC k _ _ => some k
  | .zaddC _ _ _ => none
  | .zremC _ _ _ => none

/-- A backend state holding one decision for agent `agent-a`: the content
key `meshnet:decision:d1` and the index entry `d1` at score 5. -/
def c4state : RedisState :=
  redisZadd (redisSetex emptyState (decKey "d1") (7 * 24 * 3600) (Wire.rawStr "content-v"))
    (decIndexKey "agent-a") (.rawStr "d1") 5

/-- A backend state holding one conversation entry for agent `agent-a`. -/
def c7state : RedisState :=
  redisZadd emptyState (convKey "agent-a")
    (.jsonOf (convEntry 1 (Json.jstr "mining") "agent-a")) 1

/-- A backend state whose conversation collection for agent `agent-a` holds
one malformed entry (score 1) and one well-formed entry (score 2). -/
def c8state : RedisState :=
  redisZadd (redisZadd emptyState (convKey "agent-a") (.rawStr "garbage") 1)
    (convKey "agent-a") (.jsonOf (convEntry 2 (Json.jstr "x") "agent-a")) 2

/-! Lemmas about the backend primitives. -/

theorem upd_same {α : Type} (f : String → α) (k : String) (v : α) : upd f k v k = v := by
  simp [upd]

theorem upd_ne {α : Type} (f : String → α) (k : String) (v : α) (k2 : String)
    (h : k2 ≠ k) : upd f k v k2 = f k2 := by
  simp [upd, h]

theorem zsliceRemove_zero_neg {α : Type} (l : List α) (m : Int) (hm : m < 0) :
    zsliceRemove l 0 m = l.drop ((l.length : Int) + m + 1).toNat := by
  unfold zsliceRemove
  simp only [if_pos hm, show ¬ ((0:Int) < 0) by omega, if_false, max_self]
  split_ifs with h
  · have : ((l.length : Int) + m + 1).toNat = 0 := by omega
    rw [this, List.drop_zero]
  · have : (min (m + (l.length:Int)) ((l.length:Int) - 1)).toNat + 1
        = ((l.length : Int) + m + 1).toNat := by omega
    rw [this]
    simp

theorem zsliceGet_zero_nonneg {α : Type} (l : List α) (m : Int) (hm : 0 ≤ m) :
    zsliceGet l 0 m = l.take (m.toNat + 1) := by
  unfold zsliceGet
  simp only [if_neg (by omega : ¬ ((0:Int) < 0)), if_neg (not_lt.2 hm)]
  simp only [max_self, Int.toNat_zero, List.drop_zero, Nat.sub_zero]
  split_ifs with h
  · have hn : l.length = 0 := by omega
    simp [List.eq_nil_of_length_eq_zero hn]
  · rcases le_or_lt ((l.length : Int)) m with hc | hc
    · have e1 : (min m ((l.length:Int) - 1)).toNat + 1 = l.length := by omega
      rw [e1, List.take_length, List.take_of_length_le (by omega)]
    · have e1 : (min m ((l.length:Int) - 1)).toNat + 1 = m.toNat + 1 := by omega
      rw [e1]

theorem zsliceGet_zero_negone {α : Type} (l : List α) :
    zsliceGet l 0 (-1) = l := by
  unfold zsliceGet
  simp only [if_pos (by omega : (-1:Int) < 0), if_neg (by omega : ¬ ((0:Int) < 0))]
  simp only [max_self, Int.toNat_zero, List.drop_zero, Nat.sub_zero]
  split_ifs with h
  · have hn : l.length = 0 := by omega
    simp [List.eq_nil_of_length_eq_zero hn]
  · have e1 : (min (-1 + (l.length:Int)) ((l.length:Int) - 1)).toNat + 1 = l.length := by omega
    rw [e1, List.take_length]

theorem zsliceGet_cons_zero_zero {α : Type} (x : α) (l : List α) :
    zsliceGet (x :: l) 0 0 = [x] := by
  unfold zsliceGet
  simp only [if_neg (by omega : ¬ ((0:Int) < 0)), max_self, Int.toNat_zero, List.drop_zero,
    Nat.sub_zero, List.length_cons]
  rw [if_neg (by push_cast; omega : ¬ ((0:Int) > min 0 ((l.length + 1 : Nat) - 1 : Int)))]
  have e1 : (min (0:Int) ((l.length + 1 : Nat) - 1 : Int)).toNat + 1 = 1 := by push_cast; omega
  rw [e1]
  rfl

theorem zsliceRemove_length_le {α : Type} (l : List α) (k : Nat) (m : Int)
    (hm : m = -(k:Int) - 1) : (zsliceRemove l 0 m).length ≤ k := by
  rw [zsliceRemove_zero_neg l m (by omega)]
  simp [List.length_drop]
  omega

theorem zsliceRemove_keeps_last {α : Type} (A : List α) (x : α) (k : Nat) (m : Int)
    (hk : 1 ≤ k) (hm : m = -(k:Int) - 1) :
    ∃ A2, zsliceRemove (A ++ [x]) 0 m = A2 ++ [x] ∧ ∀ e ∈ A2, e ∈ A := by
  rw [zsliceRemove_zero_neg _ m (by omega)]
  have hjle : (((A ++ [x]).length : Int) + m + 1).toNat ≤ A.length := by
    simp [List.length_append]
    omega
  refine ⟨A.drop _, List.drop_append_of_le_length hjle, ?_⟩
  intro e he
  exact List.mem_of_mem_drop he

theorem zinsert_append (l : List (Wire × Nat)) (m : Wire) (s : Nat)
    (h : ∀ e ∈ l, e.2 ≤ s) : zinsert l m s = l ++ [(m, s)] := by
  induction l with
  | nil => rfl
  | cons e rest ih =>
    have he : e.2 ≤ s := h e (List.mem_cons_self e rest)
    simp only [zinsert, if_neg (by omega : ¬ s < e.2), List.cons_append, List.cons.injEq,
      true_and]
    exact ih (fun e2 h2 => h e2 (List.mem_cons_of_mem e h2))

theorem zaddList_append (l : List (Wire × Nat)) (m : Wire) (s : Nat)
    (h : ∀ e ∈ l, e.2 ≤ s) :
    zaddList l m s = l.filter (fun e => decide (e.1 ≠ m)) ++ [(m, s)] := by
  unfold zaddList
  exact zinsert_append _ m s (fun e he => h e (List.mem_of_mem_filter he))

theorem retention_bound_store_conversation (st : RedisState) (a : String) (p : Json)
    (t : Nat) :
    ((store_conversation true st a p t).1.zsets (convKey a)).length ≤ 1000 := by
  simp only [store_conversation, if_pos, redisExpire, redisZremrangebyrank, redisZadd]
  simp only [upd_same]
  exact zsliceRemove_length_le _ 1000 _ (by norm_num)

theorem retention_bound_store_decision (st : RedisState) (a : String) (p : Json)
    (t : Nat) :
    ((store_decision true st a p t).1.zsets (decIndexKey a)).length ≤ 500 := by
  simp only [store_decision, if_pos, redisSetex, redisZremrangebyrank, redisZadd]
  simp only [upd_same]
  exact zsliceRemove_length_le _ 500 _ (by norm_num)

theorem retention_bound_save_checkpoint (st : RedisState) (tid : String) (d : Json)
    (meta : Option Json) (cid : String) (t : Nat) :
    ((save_checkpoint true st tid d meta cid t).1.zsets (threadKey tid)).length ≤ 50 := by
  rcases meta with _ | m
  · simp only [save_checkpoint, if_pos, saveCheckpointCmds, applyCmds, List.foldl,
      applyCmd, redisSetex, redisZadd, redisZremrangebyrank, List.append_nil]
    simp only [upd_same]
    exact zsliceRemove_length_le _ 50 _ (by norm_num)
  · by_cases hm : jsonTruthy m
    · simp only [save_checkpoint, if_pos, saveCheckpointCmds, hm, if_true, applyCmds,
        List.cons_append, List.nil_append, List.foldl,
        applyCmd, redisSetex, redisZadd, redisZremrangebyrank]
      simp only [upd_same]
      exact zsliceRemove_length_le _ 50 _ (by norm_num)
    · simp only [save_checkpoint, if_pos, saveCheckpointCmds, hm, if_false, applyCmds,
        List.append_nil, List.foldl,
        applyCmd, redisSetex, redisZadd, redisZremrangebyrank]
      simp only [upd_same]
      exact zsliceRemove_length_le _ 50 _ (by norm_num)

/-- Claim C2: after every completed insert, the touched collection respects
its retention bound, because the trim is issued synchronously after the
insert inside the same operation: `store_conversation` leaves at most 1000
conversation entries, `store_decision` at most 500 index ids, and
`save_checkpoint` at most 50 thread index ids, from any prior backend
state. -/
theorem retention_bounds_after_insert (st : RedisState) (a : String) (p : Json)
    (t : Nat) (tid : String) (d : Json) (meta : Option Json) (cid : String) :
    ((store_conversation true st a p t).1.zsets (convKey a)).length ≤ 1000
    ∧ ((store_decision true st a p t).1.zsets (decIndexKey a)).length ≤ 500
    ∧ ((save_checkpoint true st tid d meta cid t).1.zsets (threadKey tid)).length ≤ 50 :=
  ⟨retention_bound_store_conversation st a p t,
   retention_bound_store_decision st a p t,
   retention_bound_save_checkpoint st tid d meta cid t⟩

/-- Claim C1: storing a conversation payload and then asking for the most
recent history entry returns exactly the record just wrapped, whose `data`
field is the stored payload.  The hypothesis says the clock at the store is
later than every score already in the agent's collection. -/
theorem store_conversation_roundtrip (st : RedisState) (a : String) (p : Json) (t : Nat)
    (h : ∀ e ∈ st.zsets (convKey a), e.2 < t) :
    get_conversation_history true (store_conversation true st a p t).1 a 1
      = [convEntry t p a]
    ∧ objGet (convEntry t p a) "data" = some p := by
  constructor
  · have hz : ∃ A2, (store_conversation true st a p t).1.zsets (convKey a)
        = A2 ++ [(Wire.jsonOf (convEntry t p a), t)] := by
      simp only [store_conversation, if_pos, redisExpire, redisZremrangebyrank, redisZadd,
        upd_same]
      rw [zaddList_append _ _ _ (fun e he => le_of_lt (h e he))]
      obtain ⟨A2, hA2, _⟩ := zsliceRemove_keeps_last
        ((st.zsets (convKey a)).filter
          (fun e => decide (e.1 ≠ Wire.jsonOf (convEntry t p a))))
        (Wire.jsonOf (convEntry t p a), t) 1000 (-1001) (by norm_num) (by norm_num)
      exact ⟨A2, hA2⟩
    obtain ⟨A2, hA2⟩ := hz
    simp only [get_conversation_history, if_pos, redisZrevrange,
      show (1:Int) - 1 = 0 by norm_num, hA2, List.reverse_append, List.reverse_cons,
      List.reverse_nil, List.nil_append, List.singleton_append, zsliceGet_cons_zero_zero,
      List.map_cons, List.map_nil, List.filterMap_cons, loads, List.filterMap_nil]
  · simp [convEntry, objGet, jlookup]

theorem store_conversation_roundtrip_witness :
    (∀ e ∈ emptyState.zsets (convKey "agent-a"), e.2 < 1)
    ∧ (get_conversation_history true
          (store_conversation true emptyState "agent-a" (Json.jstr "hello") 1).1 "agent-a" 1
          = [convEntry 1 (Json.jstr "hello") "agent-a"]
      ∧ objGet (convEntry 1 (Json.jstr "hello") "agent-a") "data"
          = some (Json.jstr "hello")) :=
  ⟨by simp [emptyState],
   store_conversation_roundtrip emptyState "agent-a" (Json.jstr "hello") 1
     (by simp [emptyState])⟩

theorem save_checkpoint_none_zsets (st : RedisState) (tid : String) (d : Json)
    (cid : String) (t : Nat) :
    (save_checkpoint true st tid d none cid t).1.zsets (threadKey tid)
      = zsliceRemove (zaddList (st.zsets (threadKey tid)) (.rawStr cid) t) 0 (-51) := by
  simp only [save_checkpoint, if_pos, saveCheckpointCmds, List.append_nil, applyCmds,
    List.foldl, applyCmd, redisSetex, redisZadd, redisZremrangebyrank, upd_same]

theorem save_checkpoint_none_strings (st : RedisState) (tid : String) (d : Json)
    (cid : String) (t : Nat) :
    (save_checkpoint true st tid d none cid t).1.strings
      = upd st.strings (ckptKey cid)
          (some (.jsonOf (checkpointEntry tid cid d none t))) := by
  simp only [save_checkpoint, if_pos, saveCheckpointCmds, List.append_nil, applyCmds,
    List.foldl, applyCmd, redisSetex, redisZadd, redisZremrangebyrank]

theorem save_thread_shape (st : RedisState) (tid : String) (d : Json) (cid : String)
    (t : Nat) (h : ∀ e ∈ st.zsets (threadKey tid), e.2 < t) :
    ∃ A2, (save_checkpoint true st tid d none cid t).1.zsets (threadKey tid)
        = A2 ++ [(Wire.rawStr cid, t)]
      ∧ ∀ e ∈ A2, e.2 < t := by
  rw [save_checkpoint_none_zsets,
    zaddList_append _ _ _ (fun e he => le_of_lt (h e he))]
  obtain ⟨A2, hA2, hmem⟩ := zsliceRemove_keeps_last
    ((st.zsets (threadKey tid)).filter (fun e => decide (e.1 ≠ Wire.rawStr cid)))
    (Wire.rawStr cid, t) 50 (-51) (by norm_num) (by norm_num)
  exact ⟨A2, hA2, fun e he => h e (List.mem_of_mem_filter (hmem e he))⟩

theorem save_thread_bound (st : RedisState) (tid : String) (d : Json) (cid : String)
    (t t2 : Nat) (h : ∀ e ∈ st.zsets (threadKey tid), e.2 < t) (ht : t < t2) :
    ∀ e ∈ (save_checkpoint true st tid d none cid t).1.zsets (threadKey tid), e.2 < t2 := by
  obtain ⟨A2, hA2, hs⟩ := save_thread_shape st tid d cid t h
  rw [hA2]
  intro e he
  rcases List.mem_append.1 he with hin | hin
  · exact lt_trans (hs e hin) ht
  · simp only [List.mem_singleton] at hin
    rw [hin]
    exact ht

/-- Claim C3: saving checkpoints with payloads `step: 0`, `step: 1`,
`step: 2` for the same thread at increasing clock values and then asking
for the latest checkpoint returns the `step: 2` record, because the single
highest-score id is read from the thread index and that checkpoint is
loaded.  The first hypothesis says the clock starts later than every score
already in the thread index. -/
theorem checkpoint_ordering (st : RedisState) (tid cid0 cid1 cid2 : String)
    (t0 t1 t2 : Nat) (h : ∀ e ∈ st.zsets (threadKey tid), e.2 < t0)
    (h01 : t0 < t1) (h12 : t1 < t2) :
    get_latest_checkpoint true
      (save_checkpoint true
        (save_checkpoint true
          (save_checkpoint true st tid (.jobj (.fcons "step" (.jnum 0) .fnil)) none cid0 t0).1
          tid (.jobj (.fcons "step" (.jnum 1) .fnil)) none cid1 t1).1
        tid (.jobj (.fcons "step" (.jnum 2) .fnil)) none cid2 t2).1 tid
      = some (checkpointEntry tid cid2 (.jobj (.fcons "step" (.jnum 2) .fnil)) none t2)
    ∧ objGet (checkpointEntry tid cid2 (.jobj (.fcons "step" (.jnum 2) .fnil)) none t2)
        "data" = some (.jobj (.fcons "step" (.jnum 2) .fnil)) := by
  refine ⟨?_, by simp [checkpointEntry, objGet, jlookup]⟩
  have hZ1 := save_thread_bound st tid (.jobj (.fcons "step" (.jnum 0) .fnil)) cid0 t0 t1 h h01
  have hZ2 := save_thread_bound _ tid (.jobj (.fcons "step" (.jnum 1) .fnil)) cid1 t1 t2 hZ1 h12
  obtain ⟨A3, hA3, _⟩ := save_thread_shape _ tid (.jobj (.fcons "step" (.jnum 2) .fnil)) cid2 t2 hZ2
  simp only [get_latest_checkpoint, if_pos, redisZrevrange, hA3, List.reverse_append,
    List.reverse_cons, List.reverse_nil, List.nil_append, List.singleton_append,
    zsliceGet_cons_zero_zero, List.map_cons, List.map_nil]
  simp only [Wire.asStr, load_checkpoint, if_pos, redisGet, save_checkpoint_none_strings,
    upd_same, loads]

theorem checkpoint_ordering_witness :
    (∀ e ∈ emptyState.zsets (threadKey "th"), e.2 < 1) ∧ 1 < 2 ∧ 2 < 3
    ∧ (get_latest_checkpoint true
        (save_checkpoint true
          (save_checkpoint true
            (save_checkpoint true emptyState "th" (.jobj (.fcons "step" (.jnum 0) .fnil))
              none "c0" 1).1
            "th" (.jobj (.fcons "step" (.jnum 1) .fnil)) none "c1" 2).1
          "th" (.jobj (.fcons "step" (.jnum 2) .fnil)) none "c2" 3).1 "th"
        = some (checkpointEntry "th" "c2" (.jobj (.fcons "step" (.jnum 2) .fnil)) none 3)
      ∧ objGet (checkpointEntry "th" "c2" (.jobj (.fcons "step" (.jnum 2) .fnil)) none 3)
          "data" = some (.jobj (.fcons "step" (.jnum 2) .fnil))) :=
  ⟨by simp [emptyState], by norm_num, by norm_num,
   checkpoint_ordering emptyState "th" "c0" "c1" "c2" 1 2 3
     (by simp [emptyState]) (by norm_num) (by norm_num)⟩

theorem append_ne_append (p q a b : String) (n : Nat) (h1 : n ≤ p.data.length)
    (h2 : n ≤ q.data.length) (hne : p.data.take n ≠ q.data.take n) :
    p ++ a ≠ q ++ b := by
  intro h
  have hd : p.data ++ a.data = q.data ++ b.data := congrArg String.data h
  apply hne
  calc p.data.take n = (p.data ++ a.data).take n := (List.take_append_of_le_length h1).symm
    _ = (q.data ++ b.data).take n := by rw [hd]
    _ = q.data.take n := List.take_append_of_le_length h2

theorem threadKey_ne_ckptKey (tid cid : String) : threadKey tid ≠ ckptKey cid :=
  append_ne_append _ _ _ _ 11 (by decide) (by decide) (by decide)

theorem threadKey_ne_metaKey (tid cid : String) : threadKey tid ≠ metaKey cid :=
  append_ne_append _ _ _ _ 11 (by decide) (by decide) (by decide)

theorem metaKey_ne_ckptKey (cid cid2 : String) : metaKey cid ≠ ckptKey cid2 :=
  append_ne_append _ _ _ _ 11 (by decide) (by decide) (by decide)

theorem exists_false_strings (st : RedisState) (k : String)
    (h : redisExists st k = false) : st.strings k = none := by
  simp only [redisExists, Bool.or_eq_false_iff] at h
  cases hc : st.strings k with
  | none => rfl
  | some w => rw [hc] at h; simp at h

/-- Claim C6: `delete_checkpoint` removes the checkpoint content key and
the metadata side-table key, and leaves every thread index untouched: the
deleted id is not removed from any thread's sorted index. -/
theorem delete_checkpoint_frame (st : RedisState) (cid : String) :
    ((delete_checkpoint true st cid).1.strings (ckptKey cid) = none
    ∧ (delete_checkpoint true st cid).1.strings (metaKey cid) = none)
    ∧ ∀ tid, (delete_checkpoint true st cid).1.zsets (threadKey tid)
        = st.zsets (threadKey tid) := by
  refine ⟨⟨?_, ?_⟩, ?_⟩
  · simp only [delete_checkpoint, if_pos]
    split_ifs with h1 h2 h2 <;>
      simp_all [redisDel, upd, (metaKey_ne_ckptKey cid cid).symm, exists_false_strings]
  · simp only [delete_checkpoint, if_pos]
    split_ifs with h1 h2 h2 <;>
      simp_all [redisDel, upd, exists_false_strings]
  · intro tid
    simp only [delete_checkpoint, if_pos]
    split_ifs with h1 h2 h2 <;>
      simp_all [redisDel, upd, threadKey_ne_ckptKey tid cid, threadKey_ne_metaKey tid cid]

/-- Claim C8: reading conversation history with a positive limit traverses
the sorted collection from the highest score downwards (the reverse of the
ascending collection, which is descending when the collection is
score-sorted), keeps the first `limit` entries, silently drops every entry
that fails to parse, and returns the empty sequence when the backend
raises; the operation itself is total and never raises. -/
theorem get_conversation_history_reads (st : RedisState) (a : String) (limit : Int)
    (hl : 1 ≤ limit)
    (hsorted : List.Pairwise (fun e f => e.2 ≤ f.2) (st.zsets (convKey a))) :
    get_conversation_history true st a limit
      = (((st.zsets (convKey a)).reverse.map Prod.fst).take limit.toNat).filterMap loads
    ∧ List.Pairwise (fun e f => f.2 ≤ e.2) ((st.zsets (convKey a)).reverse)
    ∧ get_conversation_history false st a limit = [] := by
  refine ⟨?_, ?_, by simp [get_conversation_history]⟩
  · simp only [get_conversation_history, if_pos, redisZrevrange,
      zsliceGet_zero_nonneg _ (limit - 1) (by omega)]
    have he : (limit - 1).toNat + 1 = limit.toNat := by omega
    rw [he, List.map_take]
  · rw [List.pairwise_reverse]
    exact hsorted

theorem get_conversation_history_reads_witness :
    ((1:Int) ≤ 5)
    ∧ List.Pairwise (fun (e f : Wire × Nat) => e.2 ≤ f.2) (c8state.zsets (convKey "agent-a"))
    ∧ (get_conversation_history true c8state "agent-a" 5
        = (((c8state.zsets (convKey "agent-a")).reverse.map Prod.fst).take
            (5:Int).toNat).filterMap loads
      ∧ List.Pairwise (fun e f => f.2 ≤ e.2) ((c8state.zsets (convKey "agent-a")).reverse)
      ∧ get_conversation_history false c8state "agent-a" 5 = []) :=
  ⟨by norm_num, by decide,
   get_conversation_history_reads c8state "agent-a" 5 (by norm_num) (by decide)⟩

/-- Claim C9: the health check is a total function; with a live backend it
reports status `healthy` and `redis_connected: true` (the test key it just
wrote always reads back), and with the backend unreachable it reports
status `unhealthy` and `redis_connected: false` instead of raising. -/
theorem health_check_reports (st : RedisState) (now err : String) :
    objGet (health_check true st now err).2 "status" = some (.jstr "healthy")
    ∧ objGet (health_check true st now err).2 "redis_connected" = some (.jbool true)
    ∧ objGet (health_check false st now err).2 "status" = some (.jstr "unhealthy")
    ∧ objGet (health_check false st now err).2 "redis_connected" = some (.jbool false) := by
  refine ⟨?_, ?_, by simp [health_check, objGet, jlookup],
    by simp [health_check, objGet, jlookup]⟩ <;>
    simp [health_check, redisSetex, redisGet, redisDel, upd_same, objGet, jlookup]

/-- Claim C10: a limit of 0 is not an empty read: the range end index
`limit - 1 = -1` denotes the last element of the sorted collection, so
`get_conversation_history` parses every stored entry (newest first) and
`get_recent_decisions` fetches every indexed id. -/
theorem limit_zero_reads_all (st : RedisState) (a : String) :
    get_conversation_history true st a 0
      = ((st.zsets (convKey a)).reverse.map Prod.fst).filterMap loads
    ∧ get_recent_decisions true st a 0
      = ((st.zsets (decIndexKey a)).reverse.map Prod.fst).filterMap
          (fun idw =>
            match redisGet st (decKey idw.asStr) with
            | some w => loads w
            | none => none) := by
  constructor <;>
    simp only [get_conversation_history, get_recent_decisions, if_pos, redisZrevrange,
      show (0:Int) - 1 = -1 by norm_num, zsliceGet_zero_negone]

/-- Claim C4 (code bug): `clear_agent_memory` is meant to also delete every
decision content key referenced by the agent's decision index, but it
deletes the index key *before* reading the ids out of it, so the read
returns nothing and no content key is ever deleted; and it returns `True`
unconditionally, even when nothing was removed.  Evaluated here at a state
holding one indexed decision: the content key survives the clear. -/
theorem clear_agent_memory_keeps_decision_content :
    (clear_agent_memory true c4state "agent-a").1.strings (decKey "d1")
      = some (Wire.rawStr "content-v")
    ∧ (clear_agent_memory true c4state "agent-a").2 = true
    ∧ (clear_agent_memory true emptyState "agent-b").2 = true :=
  ⟨by decide, by decide, by decide⟩

theorem applyCmds_cons (c : Cmd) (l : List Cmd) (st : RedisState) :
    applyCmds (c :: l) st = applyCmds l (applyCmd st c) := rfl

theorem applyCmds_strings_frame : ∀ (cmds : List Cmd) (st : RedisState) (key : String),
    (∀ c ∈ cmds, cmdStringsKey c ≠ some key) →
    (applyCmds cmds st).strings key = st.strings key := by
  intro cmds
  induction cmds with
  | nil => intro st key _; rfl
  | cons c rest ih =>
    intro st key h
    rw [applyCmds_cons, ih (applyCmd st c) key (fun c2 h2 => h c2 (List.mem_cons_of_mem c h2))]
    rcases c with ⟨k2, ttl, v⟩ | ⟨k2, m, s⟩ | ⟨k2, i, j⟩
    · have hne : key ≠ k2 := by
        intro heq
        exact h _ (List.mem_cons_self _ _) (by rw [cmdStringsKey, heq])
      exact upd_ne _ _ _ _ hne
    · rfl
    · rfl

theorem saveCheckpointCmds_shape (tid : String) (d : Json) (meta : Option Json)
    (cid : String) (t : Nat) :
    saveCheckpointCmds tid d meta cid t
      = .setexC (ckptKey cid) (24 * 3600)
          (.jsonOf (checkpointEntry tid cid d meta t))
        :: .zaddC (threadKey tid) (.rawStr cid) t
        :: .zremC (threadKey tid) 0 (-51)
        :: (match meta with
            | some m =>
              if jsonTruthy m
              then [.setexC (metaKey cid) (24 * 3600) (.jsonOf m)]
              else []
            | none => []) := by
  simp [saveCheckpointCmds]

theorem metaCmds_strings (meta : Option Json) (cid : String) (c : Cmd)
    (hc : c ∈ (match meta with
            | some m =>
              if jsonTruthy m
              then [Cmd.setexC (metaKey cid) (24 * 3600) (Wire.jsonOf m)]
              else []
            | none => ([] : List Cmd))) :
    cmdStringsKey c = some (metaKey cid) := by
  rcases meta with _ | m
  · simp at hc
  · by_cases hm : jsonTruthy m
    · simp only [hm, if_true] at hc
      simp only [List.mem_singleton] at hc
      rw [hc, cmdStringsKey]
    · simp [hm] at hc

/-- Claim C5: within one `save_checkpoint` the checkpoint content key is
written strictly before the thread-index entry, so after executing any
prefix of its backend calls (a partial failure), a thread-index entry for
the fresh checkpoint id implies the content key holds the checkpoint
record ("never the reverse"), while the one-call prefix exhibits the
allowed asymmetry: content written, index entry absent. -/
theorem save_checkpoint_write_order (st : RedisState) (tid : String) (d : Json)
    (meta : Option Json) (cid : String) (t : Nat)
    (hfresh : ∀ e ∈ st.zsets (threadKey tid), e.1 ≠ Wire.rawStr cid) :
    (∀ k : Nat,
      (∃ e ∈ (applyCmds ((saveCheckpointCmds tid d meta cid t).take k) st).zsets
          (threadKey tid), e.1 = Wire.rawStr cid) →
      (applyCmds ((saveCheckpointCmds tid d meta cid t).take k) st).strings (ckptKey cid)
        = some (.jsonOf (checkpointEntry tid cid d meta t)))
    ∧ ((applyCmds ((saveCheckpointCmds tid d meta cid t).take 1) st).strings (ckptKey cid)
        = some (.jsonOf (checkpointEntry tid cid d meta t))
      ∧ ∀ e ∈ (applyCmds ((saveCheckpointCmds tid d meta cid t).take 1) st).zsets
          (threadKey tid), e.1 ≠ Wire.rawStr cid) := by
  rw [saveCheckpointCmds_shape]
  have h1state : applyCmds ((Cmd.setexC (ckptKey cid) (24 * 3600)
        (Wire.jsonOf (checkpointEntry tid cid d meta t))
      :: Cmd.zaddC (threadKey tid) (Wire.rawStr cid) t
      :: Cmd.zremC (threadKey tid) 0 (-51)
      :: (match meta with
          | some m =>
            if jsonTruthy m
            then [Cmd.setexC (metaKey cid) (24 * 3600) (Wire.jsonOf m)]
            else []
          | none => [])).take 1) st
      = redisSetex st (ckptKey cid) (24 * 3600)
          (Wire.jsonOf (checkpointEntry tid cid d meta t)) := rfl
  refine ⟨?_, ?_⟩
  · intro k
    match k with
    | 0 =>
      intro hex
      obtain ⟨e, he, heq⟩ := hex
      exact absurd heq (hfresh e he)
    | 1 =>
      intro hex
      rw [h1state] at hex
      obtain ⟨e, he, heq⟩ := hex
      exact absurd heq (hfresh e he)
    | (n + 2) =>
      intro _
      rw [List.take_succ_cons, applyCmds_cons]
      rw [show applyCmd st (Cmd.setexC (ckptKey cid) (24 * 3600)
            (Wire.jsonOf (checkpointEntry tid cid d meta t)))
          = redisSetex st (ckptKey cid) (24 * 3600)
              (Wire.jsonOf (checkpointEntry tid cid d meta t)) from rfl]
      rw [applyCmds_strings_frame]
      · exact upd_same _ _ _
      · intro c hc
        have hmem := List.take_subset _ _ hc
        rcases List.mem_cons.1 hmem with hc2 | hrest
        · rw [hc2, cmdStringsKey]
          simp
        · rcases List.mem_cons.1 hrest with hc3 | hm
          · rw [hc3, cmdStringsKey]
            simp
          · rw [metaCmds_strings meta cid c hm]
            intro heq
            exact metaKey_ne_ckptKey cid cid (Option.some.inj heq)
  · constructor
    · rw [h1state]
      exact upd_same _ _ _
    · rw [h1state]
      exact hfresh

theorem save_checkpoint_write_order_witness :
    (∀ e ∈ emptyState.zsets (threadKey "th"), e.1 ≠ Wire.rawStr "c9")
    ∧ ((∀ k : Nat,
        (∃ e ∈ (applyCmds ((saveCheckpointCmds "th" Json.jnull none "c9" 1).take k)
            emptyState).zsets (threadKey "th"), e.1 = Wire.rawStr "c9") →
        (applyCmds ((saveCheckpointCmds "th" Json.jnull none "c9" 1).take k)
            emptyState).strings (ckptKey "c9")
          = some (.jsonOf (checkpointEntry "th" "c9" Json.jnull none 1)))
      ∧ ((applyCmds ((saveCheckpointCmds "th" Json.jnull none "c9" 1).take 1)
            emptyState).strings (ckptKey "c9")
          = some (.jsonOf (checkpointEntry "th" "c9" Json.jnull none 1))
        ∧ ∀ e ∈ (applyCmds ((saveCheckpointCmds "th" Json.jnull none "c9" 1).take 1)
            emptyState).zsets (threadKey "th"), e.1 ≠ Wire.rawStr "c9")) :=
  ⟨by simp [emptyState],
   save_checkpoint_write_order emptyState "th" Json.jnull none "c9" 1
     (by simp [emptyState])⟩

theorem mem_hits {q ty rel : String} {src : List Json} {r : Json}
    (hr : r ∈ src.filterMap
      (fun c => if matchQ q c then some (searchHit ty rel c) else none)) :
    ∃ c ∈ src, r = searchHit ty rel c := by
  obtain ⟨c, hc, hf⟩ := List.mem_filterMap.1 hr
  by_cases hm : matchQ q c
  · refine ⟨c, hc, ?_⟩
    rw [if_pos hm] at hf
    exact (Option.some.inj hf).symm
  · rw [if_neg hm] at hf
    exact absurd hf (Option.noConfusion)

theorem searchHit_fields (ty rel : String) (c : Json) :
    objGet (searchHit ty rel c) "type" = some (.jstr ty)
    ∧ objGet (searchHit ty rel c) "relevance" = some (.jstr rel)
    ∧ objGet (searchHit ty rel c) "data" = some c := by
  refine ⟨rfl, ?_, ?_⟩ <;> simp [searchHit, objGet, jlookup]

/-- Claim C7: every record returned by an agent-scoped search carries the
agent's id (under the hypothesis that the agent's stored records are
well-formed, i.e. carry that agent id, which is what the store operations
write); the result is at most `limit` long; and it splits into a block of
conversation hits (tagged relevance `high`, drawn from the agent's
conversation history) followed by a block of decision hits (tagged
relevance `medium`, drawn from the agent's recent decisions) — scan order,
conversations before decisions. -/
theorem search_memory_scoped (st : RedisState) (q a : String) (limit : Int)
    (h0 : 0 ≤ limit)
    (hconv : ∀ c ∈ get_conversation_history true st a (limit * 2),
        objGet c "agent_id" = some (.jstr a))
    (hdec : ∀ d ∈ get_recent_decisions true st a (limit * 2),
        objGet d "agent_id" = some (.jstr a)) :
    (search_memory true st q (some a) limit).length ≤ limit.toNat
    ∧ (∀ r ∈ search_memory true st q (some a) limit,
        ∃ c, objGet r "data" = some c ∧ objGet c "agent_id" = some (.jstr a))
    ∧ ∃ cs ds, search_memory true st q (some a) limit = cs ++ ds
        ∧ (∀ r ∈ cs, objGet r "type" = some (.jstr "conversation")
            ∧ objGet r "relevance" = some (.jstr "high")
            ∧ ∃ c ∈ get_conversation_history true st a (limit * 2),
                objGet r "data" = some c)
        ∧ (∀ r ∈ ds, objGet r "type" = some (.jstr "decision")
            ∧ objGet r "relevance" = some (.jstr "medium")
            ∧ ∃ d ∈ get_recent_decisions true st a (limit * 2),
                objGet r "data" = some d) := by
  have hunfold : search_memory true st q (some a) limit
      = pyTake
          ((get_conversation_history true st a (limit * 2)).filterMap
            (fun c => if matchQ q c then some (searchHit "conversation" "high" c) else none)
          ++ (get_recent_decisions true st a (limit * 2)).filterMap
            (fun d => if matchQ q d then some (searchHit "decision" "medium" d) else none))
          limit := rfl
  have hpy : ∀ (l : List Json), pyTake l limit = l.take limit.toNat := by
    intro l
    rw [pyTake, if_neg (not_lt.2 h0)]
  refine ⟨?_, ?_, ?_⟩
  · rw [hunfold, hpy]
    exact List.length_take_le _ _
  · intro r hr
    rw [hunfold, hpy] at hr
    have hr2 := List.take_subset _ _ hr
    rcases List.mem_append.1 hr2 with hin | hin
    · obtain ⟨c, hc, rfl⟩ := mem_hits hin
      exact ⟨c, (searchHit_fields _ _ c).2.2, hconv c hc⟩
    · obtain ⟨d, hd, rfl⟩ := mem_hits hin
      exact ⟨d, (searchHit_fields _ _ d).2.2, hdec d hd⟩
  · rw [hunfold, hpy, List.take_append_eq_append_take]
    refine ⟨_, _, rfl, ?_, ?_⟩
    · intro r hr
      obtain ⟨c, hc, rfl⟩ := mem_hits (List.take_subset _ _ hr)
      obtain ⟨hf1, hf2, hf3⟩ := searchHit_fields "conversation" "high" c
      exact ⟨hf1, hf2, c, hc, hf3⟩
    · intro r hr
      obtain ⟨d, hd, rfl⟩ := mem_hits (List.take_subset _ _ hr)
      obtain ⟨hf1, hf2, hf3⟩ := searchHit_fields "decision" "medium" d
      exact ⟨hf1, hf2, d, hd, hf3⟩

theorem search_memory_scoped_witness :
    ((0:Int) ≤ 5)
    ∧ (∀ c ∈ get_conversation_history true c7state "agent-a" (5 * 2),
        objGet c "agent_id" = some (.jstr "agent-a"))
    ∧ (∀ d ∈ get_recent_decisions true c7state "agent-a" (5 * 2),
        objGet d "agent_id" = some (.jstr "agent-a"))
    ∧ ((search_memory true c7state "mining" (some "agent-a") 5).length ≤ (5:Int).toNat
      ∧ (∀ r ∈ search_memory true c7state "mining" (some "agent-a") 5,
          ∃ c, objGet r "data" = some c ∧ objGet c "agent_id" = some (.jstr "agent-a"))
      ∧ ∃ cs ds, search_memory true c7state "mining" (some "agent-a") 5 = cs ++ ds
          ∧ (∀ r ∈ cs, objGet r "type" = some (.jstr "conversation")
              ∧ objGet r "relevance" = some (.jstr "high")
              ∧ ∃ c ∈ get_conversation_history true c7state "agent-a" (5 * 2),
                  objGet r "data" = some c)
          ∧ (∀ r ∈ ds, objGet r "type" = some (.jstr "decision")
              ∧ objGet r "relevance" = some (.jstr "medium")
              ∧ ∃ d ∈ get_recent_decisions true c7state "agent-a" (5 * 2),
                  objGet r "data" = some d)) :=
  ⟨by norm_num, by decide, by decide,
   search_memory_scoped c7state "mining" "agent-a" 5 (by norm_num) (by decide) (by decide)⟩
